import Mathlib

/-!
Verification of the `codecraft-redis-rust` server.

Rust strings and byte buffers are modelled as lists of byte values
(`List Nat`); `String::len` in Rust is the UTF-8 byte length, which is the
list length here.  `String::from_utf8_lossy` applied to bytes that came from
a Rust `String` is the identity, so it is dropped in the model.  Machine
integers (`usize`, `u128`) are modelled as `Nat`; none of the verified
operations exercise overflow.  Wall-clock readings are passed explicitly as
a `now` parameter in milliseconds.
-/

namespace RedisVerify

/-- Byte-string model of Rust `String` / `&[u8]`. -/
abbrev ByteStr := List Nat

/-- Bytes of a short ASCII string literal, for writing concrete inputs. -/
def bytesOf (s : String) : ByteStr :=
  s.data.map (fun c => c.toNat)

/-- Little-endian base-10 digits, computed with explicit fuel so that the
definition is structurally recursive (kernel-reducible); `toDigitsRev n n`
agrees with `Nat.digits 10 n` (`toDigitsRev_eq_digits`). -/
def toDigitsRev : Nat → Nat → List Nat
  | 0, _ => []
  | fuel + 1, n => if n = 0 then [] else n % 10 :: toDigitsRev fuel (n / 10)

theorem toDigitsRev_eq_digits (fuel n : Nat) (h : n ≤ fuel) :
    toDigitsRev fuel n = Nat.digits 10 n := by
  induction fuel generalizing n with
  | zero =>
    have : n = 0 := by omega
    subst this; simp [toDigitsRev]
  | succ m ih =>
    unfold toDigitsRev
    by_cases h0 : n = 0
    · subst h0; simp
    · rw [if_neg h0, Nat.digits_def' (b := 10) (by norm_num) (Nat.pos_of_ne_zero h0)]
      congr 1
      have hlt : n / 10 < n := Nat.div_lt_self (Nat.pos_of_ne_zero h0) (by norm_num)
      exact ih _ (by omega)

/-- ASCII decimal rendering of a nonnegative integer
(Rust `usize::to_string()` / `format!` of a length): most-significant digit
first, `0` rendered as the single byte `'0'`. -/
def natBytes (n : Nat) : ByteStr :=
  if n = 0 then [48] else (toDigitsRev n n).reverse.map (fun d => d + 48)

/-- ASCII digit test. -/
def isDigitByte (b : Nat) : Bool := 48 ≤ b && b ≤ 57

/-- Rust `str::parse::<usize>()`: an optional leading `+`, then one or more
ASCII digits; any other byte (in particular a leading `-`) fails. -/
def parseUsize (s : ByteStr) : Option Nat :=
  let ds := match s with
    | b :: rest => if b = 43 then rest else b :: rest
    | [] => []
  if ds ≠ [] ∧ ds.all isDigitByte then
    some (Nat.ofDigits 10 ((ds.map (fun b => b - 48)).reverse))
  else none

theorem parseUsize_natBytes (n : Nat) : parseUsize (natBytes n) = some n := by
  by_cases h0 : n = 0
  · subst h0; decide
  · have hne : Nat.digits 10 n ≠ [] := Nat.digits_ne_nil_iff_ne_zero.mpr h0
    have hrevne : (Nat.digits 10 n).reverse ≠ [] := by
      simpa using hne
    unfold natBytes
    rw [if_neg h0, toDigitsRev_eq_digits n n le_rfl]
    obtain ⟨a, t, hat⟩ := List.exists_cons_of_ne_nil hrevne
    have hamem : a ∈ Nat.digits 10 n := by
      have : a ∈ (Nat.digits 10 n).reverse := by rw [hat]; exact List.mem_cons_self a t
      simpa using this
    have halt : a < 10 := Nat.digits_lt_base (by norm_num) hamem
    have hmap_eq : ((Nat.digits 10 n).reverse.map (fun d => d + 48)) = (a + 48) :: t.map (fun d => d + 48) := by
      rw [hat, List.map_cons]
    rw [hmap_eq]
    have hhead : a + 48 ≠ 43 := by omega
    unfold parseUsize
    simp only [if_neg hhead]
    have hall : (((a + 48) :: t.map (fun d => d + 48)).all isDigitByte) = true := by
      rw [List.all_eq_true]
      intro x hx
      rcases List.mem_cons.mp hx with hx | hx
      · subst hx; unfold isDigitByte; simp; omega
      · obtain ⟨d, hd, rfl⟩ := List.mem_map.mp hx
        have hdm : d ∈ Nat.digits 10 n := by
          have : d ∈ (Nat.digits 10 n).reverse := by rw [hat]; exact List.mem_cons_of_mem _ hd
          simpa using this
        have : d < 10 := Nat.digits_lt_base (by norm_num) hdm
        unfold isDigitByte; simp; omega
    rw [if_pos ⟨by simp, hall⟩]
    congr 1
    have hback : (((a + 48) :: t.map (fun d => d + 48)).map (fun b => b - 48)) = a :: t := by
      simp [List.map_map, Function.comp_def]
    rw [hback, ← hat, List.reverse_reverse, Nat.ofDigits_digits]

/-! ## §4.1 Frame codec — `src/resp.rs` -/

/-- `Value::split_on_next_crlf`: scan for the first CRLF pair; return the
bytes before it and the bytes after it.  The Rust original panics when no
CRLF exists, modelled as `none`. -/
def split_on_next_crlf : ByteStr → Option (ByteStr × ByteStr)
  | [] => none
  | [_] => none
  | a :: b :: rest =>
    if a = 13 ∧ b = 10 then some ([], rest)
    else
      match split_on_next_crlf (b :: rest) with
      | some (w, r) => some (a :: w, r)
      | none => none

/-- Whether a byte string contains a CRLF pair. -/
def hasCRLF : ByteStr → Bool
  | a :: b :: rest => (a = 13 && b = 10) || hasCRLF (b :: rest)
  | _ => false

theorem split_on_next_crlf_append (w rest : ByteStr) (hw : hasCRLF w = false) :
    split_on_next_crlf (w ++ 13 :: 10 :: rest) = some (w, rest) := by
  induction w with
  | nil => simp [split_on_next_crlf]
  | cons a t ih =>
    cases t with
    | nil =>
      have ha : ¬(a = 13 ∧ (13 : Nat) = 10) := by omega
      simp [split_on_next_crlf, ha]
    | cons b t2 =>
      have hpair : ¬(a = 13 ∧ b = 10) := by
        intro ⟨h1, h2⟩
        unfold hasCRLF at hw
        simp [h1, h2] at hw
      have htail : hasCRLF (b :: t2) = false := by
        unfold hasCRLF at hw
        rcases Bool.or_eq_false_iff.mp hw with ⟨_, h⟩
        exact h
      have hrec := ih htail
      simp only [List.cons_append] at hrec ⊢
      rw [split_on_next_crlf, if_neg hpair, hrec]

/-- A byte string none of whose bytes is CR has no CRLF pair. -/
theorem hasCRLF_eq_false_of_no_cr (w : ByteStr) (h : ∀ b ∈ w, b ≠ 13) :
    hasCRLF w = false := by
  induction w with
  | nil => rfl
  | cons a t ih =>
    cases t with
    | nil => rfl
    | cons b t2 =>
      unfold hasCRLF
      have ha : a ≠ 13 := h a (by simp)
      have ht : ∀ x ∈ b :: t2, x ≠ 13 := fun x hx => h x (List.mem_cons_of_mem _ hx)
      simp [ha, ih ht]

/-- `Value` (`src/resp.rs`): the four RESP frame shapes. -/
inductive Value where
  | simpleString : ByteStr → Value
  | bulkString : ByteStr → Value
  | array : List Value → Value
  | null : Value

mutual
/-- `Value::serialize`.  `'+' = 43`, `'$' = 36`, `'*' = 42`, `'-' = 45`,
`'1' = 49`, CR = 13, LF = 10. -/
def serialize : Value → ByteStr
  | .simpleString s => 43 :: s ++ [13, 10]
  | .bulkString s => 36 :: natBytes s.length ++ [13, 10] ++ s ++ [13, 10]
  | .array arr => 42 :: natBytes arr.length ++ [13, 10] ++ serializeList arr
  | .null => [36, 45, 49, 13, 10]

/-- The concatenated serializations of the array elements, in order. -/
def serializeList : List Value → ByteStr
  | [] => []
  | v :: vs => serialize v ++ serializeList vs
end

/-- `Value::parse_simple_string` on the bytes after checking `buf[0]`. -/
def parse_simple_string (buf : ByteStr) : Option (Value × ByteStr) :=
  match split_on_next_crlf buf.tail with
  | none => none
  | some (word, rest) => some (.simpleString word, rest)

/-- `Value::parse_bulk_string`: read the ASCII length, read the payload up to
the next CRLF, fail when the payload length differs from the declared one.
The Rust panics (`-1` length, missing CRLF, size mismatch) are `none`. -/
def parse_bulk_string (buf : ByteStr) : Option (Value × ByteStr) :=
  match split_on_next_crlf buf.tail with
  | none => none
  | some (szBytes, rest) =>
    match parseUsize szBytes with
    | none => none
    | some size =>
      match split_on_next_crlf rest with
      | none => none
      | some (word, rest2) =>
        if word.length = size then some (.bulkString word, rest2) else none

mutual
/-- `Value::deserialize`, dispatching on the first byte; the recursion is
made total with a fuel argument (any fuel at least the number of `Value`
nodes suffices, see `deserialize_serialize`). -/
def deserialize : Nat → ByteStr → Option (Value × ByteStr)
  | 0, _ => none
  | _ + 1, [] => none
  | fuel + 1, b :: rest =>
    if b = 43 then parse_simple_string (b :: rest)
    else if b = 36 then parse_bulk_string (b :: rest)
    else if b = 42 then
      match split_on_next_crlf rest with
      | none => none
      | some (szBytes, rest2) =>
        match parseUsize szBytes with
        | none => none
        | some n =>
          match deserializeMany fuel n rest2 with
          | none => none
          | some (vs, rest3) => some (.array vs, rest3)
    else none

/-- The `parse_array` loop: deserialize `n` consecutive frames.  The fuel is
also consumed once per element so that the mutual recursion is structural on
the fuel; any fuel at least `sizeV` of the frame is enough. -/
def deserializeMany : Nat → Nat → ByteStr → Option (List Value × ByteStr)
  | _, 0, buf => some ([], buf)
  | 0, _ + 1, _ => none
  | fuel + 1, n + 1, buf =>
    match deserialize fuel buf with
    | none => none
    | some (v, rest) =>
      match deserializeMany fuel n rest with
      | none => none
      | some (vs, rest2) => some (v :: vs, rest2)
end

example : deserialize 9 (serialize (.simpleString (bytesOf "PING"))) =
    some (.simpleString (bytesOf "PING"), []) := rfl
example : deserialize 9 (serialize (.bulkString (bytesOf "ECHO"))) =
    some (.bulkString (bytesOf "ECHO"), []) := rfl
example : deserialize 9 (serialize (.array [.simpleString (bytesOf "A"), .bulkString (bytesOf "b")])) =
    some (.array [.simpleString (bytesOf "A"), .bulkString (bytesOf "b")], []) := rfl
example : deserialize 9 (serialize .null) = none := rfl

mutual
/-- Number of `Value` nodes plus array-element steps: a fuel bound for
`deserialize`. -/
def sizeV : Value → Nat
  | .simpleString _ => 1
  | .bulkString _ => 1
  | .array vs => 1 + sizeVs vs
  | .null => 1

/-- Companion bound for `deserializeMany`. -/
def sizeVs : List Value → Nat
  | [] => 0
  | v :: vs => 1 + sizeV v + sizeVs vs
end

mutual
/-- Well-formedness exactly as the spec claim words it (§4.1 / claim C1): a
simple string has no interior CR or LF; bulk strings, arrays of well-formed
values and `Null` are unrestricted. -/
def wfClaim : Value → Bool
  | .simpleString s => s.all (fun b => b != 13 && b != 10)
  | .bulkString _ => true
  | .array vs => wfClaimList vs
  | .null => true

/-- All elements well-formed in the sense of `wfClaim`. -/
def wfClaimList : List Value → Bool
  | [] => true
  | v :: vs => wfClaim v && wfClaimList vs
end

mutual
/-- Well-formedness under which the round-trip actually holds: additionally
every bulk string is free of CRLF pairs, and `Null` is excluded (its
serialization `$-1\x7b  \x7dr\x7b  \x7dn` does not deserialize: the length
`-1` is rejected by the unsigned length parse). -/
def wfRT : Value → Bool
  | .simpleString s => s.all (fun b => b != 13 && b != 10)
  | .bulkString s => !hasCRLF s
  | .array vs => wfRTList vs
  | .null => false

/-- All elements well-formed in the sense of `wfRT`. -/
def wfRTList : List Value → Bool
  | [] => true
  | v :: vs => wfRT v && wfRTList vs
end

/-- Every byte of `natBytes n` is an ASCII digit or sign, never CR. -/
theorem natBytes_no_cr (n : Nat) : ∀ b ∈ natBytes n, b ≠ 13 := by
  intro b hb
  unfold natBytes at hb
  by_cases h0 : n = 0
  · rw [if_pos h0] at hb
    simp at hb
    omega
  · rw [if_neg h0] at hb
    obtain ⟨d, _, rfl⟩ := List.mem_map.mp hb
    omega

theorem hasCRLF_natBytes (n : Nat) : hasCRLF (natBytes n) = false :=
  hasCRLF_eq_false_of_no_cr _ (natBytes_no_cr n)

theorem deserialize_serialize_aux (fuel : Nat) :
    (∀ f rest, wfRT f = true → sizeV f ≤ fuel →
      deserialize fuel (serialize f ++ rest) = some (f, rest)) ∧
    (∀ vs rest, wfRTList vs = true → sizeVs vs ≤ fuel →
      deserializeMany fuel vs.length (serializeList vs ++ rest) = some (vs, rest)) := by
  induction fuel with
  | zero =>
    constructor
    · intro f rest _ hs
      exfalso
      cases f <;> simp [sizeV] at hs
    · intro vs rest hw hs
      cases vs with
      | nil => simp [serializeList, deserializeMany]
      | cons v vs' => exfalso; simp [sizeVs] at hs
  | succ m ih =>
    constructor
    · intro f rest hw hs
      cases f with
      | simpleString s =>
        have hnocrlf : hasCRLF s = false := by
          apply hasCRLF_eq_false_of_no_cr
          intro b hb
          have := List.all_eq_true.mp hw b hb
          simp at this
          omega
        have hsplit := split_on_next_crlf_append s rest hnocrlf
        simp only [serialize, List.cons_append, List.append_assoc, List.cons_append,
          List.nil_append]
        rw [deserialize]
        simp [parse_simple_string, hsplit]
      | bulkString s =>
        have hnocrlf : hasCRLF s = false := by
          simpa [wfRT] using hw
        simp only [serialize, List.cons_append, List.append_assoc, List.cons_append,
          List.nil_append]
        rw [deserialize]
        rw [if_neg (by omega), if_pos rfl]
        unfold parse_bulk_string
        simp only [List.tail_cons]
        rw [split_on_next_crlf_append _ _ (hasCRLF_natBytes s.length)]
        simp only [parseUsize_natBytes]
        rw [split_on_next_crlf_append s rest hnocrlf]
        simp
      | array vs =>
        have hwl : wfRTList vs = true := by simpa [wfRT] using hw
        have hsz : sizeVs vs ≤ m := by
          simp only [sizeV] at hs
          omega
        simp only [serialize, List.cons_append, List.append_assoc, List.cons_append,
          List.nil_append]
        rw [deserialize]
        rw [if_neg (by omega), if_neg (by omega), if_pos rfl]
        rw [split_on_next_crlf_append _ _ (hasCRLF_natBytes vs.length)]
        simp only [parseUsize_natBytes]
        rw [ih.2 vs rest hwl hsz]
      | null => simp [wfRT] at hw
    · intro vs rest hw hs
      cases vs with
      | nil => simp [serializeList, deserializeMany]
      | cons v vs' =>
        have hwv : wfRT v = true := by
          simp [wfRTList, Bool.and_eq_true] at hw
          exact hw.1
        have hwvs : wfRTList vs' = true := by
          simp [wfRTList, Bool.and_eq_true] at hw
          exact hw.2
        have hszv : sizeV v ≤ m := by simp [sizeVs] at hs; omega
        have hszvs : sizeVs vs' ≤ m := by simp [sizeVs] at hs; omega
        simp only [serializeList, List.append_assoc, List.length_cons]
        rw [deserializeMany, ih.1 v (serializeList vs' ++ rest) hwv hszv]
        dsimp only
        rw [ih.2 vs' rest hwvs hszvs]

/-- For every fuel, deserializing the five-byte serialization of `Null`
fails: the length field `-1` is rejected by the unsigned length parse. -/
theorem deserialize_serialize_null (fuel : Nat) :
    deserialize fuel (serialize Value.null) = none := by
  cases fuel with
  | zero => rfl
  | succ m => rfl

/-- C1 (counterexample): `Null` is well-formed in the claim's sense and
serializes to `$-1\x7b \x7dr\x7b \x7dn`, yet deserializing that byte
sequence does not yield `Null` back — `parse_bulk_string` parses the length
`-1` with an unsigned-integer parse, which fails. -/
theorem C1_roundtrip_counterexample :
    wfClaim Value.null = true ∧
    serialize Value.null = bytesOf "$-1\r\n" ∧
    deserialize 9 (serialize Value.null) = none :=
  ⟨rfl, rfl, rfl⟩

/-- C1 (amended): for every well-formed frame that is free of `Null` and
whose bulk strings contain no CRLF pair, deserializing the serialization
(with any sufficient fuel) yields exactly the frame with no bytes left
over. -/
theorem C1_roundtrip (f : Value) (fuel : Nat)
    (hw : wfRT f = true) (hs : sizeV f ≤ fuel) :
    deserialize fuel (serialize f) = some (f, []) := by
  have h := (deserialize_serialize_aux fuel).1 f [] hw hs
  simpa using h

/-- Witness for `C1_roundtrip` at a concrete nested frame. -/
theorem C1_roundtrip_witness :
    deserialize 9 (serialize (Value.array [Value.simpleString (bytesOf "OK"),
      Value.bulkString (bytesOf "hey"), Value.array []])) =
    some (Value.array [Value.simpleString (bytesOf "OK"),
      Value.bulkString (bytesOf "hey"), Value.array []], []) :=
  C1_roundtrip _ 9 (by decide) (by decide)

/-! ## §4.2 Keyspace engine — `src/repository.rs` -/

/-- `TimeUnit` (`src/repository.rs`). -/
inductive TimeUnit where
  | second
  | millisecond
  deriving DecidableEq

/-- `Expiry`: an epoch instant together with its unit. -/
structure Expiry where
  epoch : Nat
  unit : TimeUnit
  deriving DecidableEq

/-- `Expiry::to_millis`. -/
def Expiry.to_millis (e : Expiry) : Nat :=
  match e.unit with
  | .second => e.epoch * 1000
  | .millisecond => e.epoch

/-- `Expiry::is_expired`, with the wall-clock reading (milliseconds since
the Unix epoch) passed explicitly instead of read from `SystemTime`. -/
def Expiry.is_expired (e : Expiry) (now_in_millis : Nat) : Bool :=
  now_in_millis > e.to_millis

/-- `Entry` (`src/repository.rs`). -/
structure Entry where
  key : ByteStr
  value : ByteStr
  expiry : Option Expiry
  deriving DecidableEq

/-- The `HashMap<String, Entry>` keyspace behind `InMemoryRepository`,
modelled as the list of stored entries (one per key, the list
`entries()` returns). -/
abbrev Repo := List Entry

/-- `HashMap::get` on the keyspace. -/
def repoFind (store : Repo) (key : ByteStr) : Option Entry :=
  store.find? (fun x => x.key == key)

/-- `InMemoryRepository::set`: `store.insert(entry.key, entry)` — replace
the entry stored under the key when one exists, add the entry otherwise. -/
def repoSet (store : Repo) (entry : Entry) : Repo :=
  if store.any (fun x => x.key == entry.key) then
    store.map (fun x => if x.key == entry.key then entry else x)
  else store ++ [entry]

/-- `InMemoryRepository::get`, with the wall-clock reading passed
explicitly: look the key up, drop the value when its expiry has passed. -/
def repoGet (store : Repo) (key : ByteStr) (now_in_millis : Nat) : Option ByteStr :=
  match repoFind store key with
  | none => none
  | some entry =>
    match entry.expiry with
    | some expiry => if expiry.is_expired now_in_millis then none else some entry.value
    | none => some entry.value

/-- C2: `get` returns the stored value exactly when an entry for the key
exists and its expiry, if set, satisfies `now_ms ≤ expiry_ms`; in
particular the value is still returned at `now_ms = expiry_ms`, and the
key reads as absent once `now_ms > expiry_ms`. -/
theorem C2_get_expiry (store : Repo) (key : ByteStr) (now_ms : Nat) (v : ByteStr) :
    (repoGet store key now_ms = some v ↔
      ∃ e, repoFind store key = some e ∧ e.value = v ∧
        (e.expiry = none ∨ ∃ ex, e.expiry = some ex ∧ now_ms ≤ ex.to_millis)) ∧
    (∀ e ex, repoFind store key = some e → e.expiry = some ex →
      now_ms = ex.to_millis → repoGet store key now_ms = some e.value) ∧
    (∀ e ex, repoFind store key = some e → e.expiry = some ex →
      ex.to_millis < now_ms → repoGet store key now_ms = none) := by
  refine ⟨?_, ?_, ?_⟩
  · unfold repoGet Expiry.is_expired
    cases hf : repoFind store key with
    | none => simp
    | some e =>
      cases hex : e.expiry with
      | none =>
        simp only [hex, Option.some_inj]
        constructor
        · intro hv
          exact ⟨e, rfl, hv, Or.inl hex⟩
        · rintro ⟨e', he', hv, _⟩
          obtain rfl : e = e' := he'
          exact hv
      | some ex =>
        simp only [hex]
        split_ifs with h
        · simp only [decide_eq_true_eq] at h
          constructor
          · intro hc; cases hc
          · rintro ⟨e', he', hv, hor⟩
            obtain rfl : e = e' := Option.some_inj.mp he'
            rcases hor with hnone | ⟨ex', hex', hle⟩
            · rw [hnone] at hex; cases hex
            · rw [hex] at hex'
              obtain rfl : ex = ex' := Option.some_inj.mp hex'
              omega
        · simp only [decide_eq_true_eq, not_lt] at h
          constructor
          · intro hv
            exact ⟨e, rfl, Option.some_inj.mp hv, Or.inr ⟨ex, hex, by omega⟩⟩
          · rintro ⟨e', he', hv, _⟩
            obtain rfl : e = e' := Option.some_inj.mp he'
            rw [hv]
  · intro e ex hf hex heq
    unfold repoGet
    rw [hf]
    simp [hex, Expiry.is_expired, heq]
  · intro e ex hf hex hlt
    unfold repoGet
    rw [hf]
    simp only [hex]
    rw [if_pos (by simp [Expiry.is_expired]; omega)]

theorem find_map_replace_self (t : Repo) (e : Entry)
    (hany : (t.any fun x => x.key == e.key) = true) :
    ((t.map fun x => if x.key == e.key then e else x).find?
      fun y => y.key == e.key) = some e := by
  induction t with
  | nil => simp at hany
  | cons x t ih =>
    by_cases hx : (x.key == e.key) = true
    · simp [hx, List.find?]
    · have ht : (t.any fun x => x.key == e.key) = true := by
        simp only [List.any_cons, hx, Bool.false_or] at hany
        exact hany
      have hx' : (x.key == e.key) = false := by simpa using hx
      simpa [List.find?, hx'] using ih ht

theorem find_append_single_self (t : Repo) (e : Entry)
    (hnone : (t.any fun x => x.key == e.key) = false) :
    ((t ++ [e]).find? fun y => y.key == e.key) = some e := by
  induction t with
  | nil => simp [List.find?]
  | cons x t ih =>
    simp only [List.any_cons, Bool.or_eq_false_iff] at hnone
    simp only [List.cons_append, List.find?, hnone.1]
    exact ih hnone.2

theorem find_map_replace_other (t : Repo) (e : Entry) (k : ByteStr) (hk : k ≠ e.key) :
    ((t.map fun x => if x.key == e.key then e else x).find? fun y => y.key == k) =
      t.find? fun y => y.key == k := by
  induction t with
  | nil => rfl
  | cons x t ih =>
    by_cases hx : (x.key == e.key) = true
    · have hxe : x.key = e.key := by simpa using hx
      have h1 : (e.key == k) = false := by
        simp only [beq_eq_false_iff_ne]
        exact fun h => hk h.symm
      have h2 : (x.key == k) = false := by
        simp only [beq_eq_false_iff_ne, hxe]
        exact fun h => hk h.symm
      simp only [List.map_cons, if_pos hx, List.find?, h1, h2]
      exact ih
    · simp only [List.map_cons, if_neg hx, List.find?]
      cases hxk : (x.key == k) with
      | true => rfl
      | false => exact ih

theorem find_append_single_other (t : Repo) (e : Entry) (k : ByteStr) (hk : k ≠ e.key) :
    ((t ++ [e]).find? fun y => y.key == k) = t.find? fun y => y.key == k := by
  induction t with
  | nil =>
    have h1 : (e.key == k) = false := by
      simp only [beq_eq_false_iff_ne]
      exact fun h => hk h.symm
    simp [List.find?, h1]
  | cons x t ih =>
    simp only [List.cons_append, List.find?]
    cases hxk : (x.key == k) with
    | true => rfl
    | false => exact ih

/-- C6: `put` stores exactly the new entry under its key — any previously
stored value and expiry for that key are discarded whole — and the entry
bound to every other key is unchanged. -/
theorem C6_put_overwrites (store : Repo) (e : Entry) :
    repoFind (repoSet store e) e.key = some e ∧
    ∀ k, k ≠ e.key → repoFind (repoSet store e) k = repoFind store k := by
  constructor
  · unfold repoSet repoFind
    by_cases hany : (store.any fun x => x.key == e.key) = true
    · rw [if_pos hany]
      exact find_map_replace_self store e hany
    · rw [if_neg hany]
      exact find_append_single_self store e (by simpa using hany)
  · intro k hk
    unfold repoSet repoFind
    by_cases hany : (store.any fun x => x.key == e.key) = true
    · rw [if_pos hany]
      exact find_map_replace_other store e k hk
    · rw [if_neg hany]
      exact find_append_single_other store e k hk

/-- Witness for `C6_put_overwrites`: overwriting a key discards the old
value and expiry; an unrelated key is untouched. -/
theorem C6_put_overwrites_witness :
    repoFind (repoSet [⟨bytesOf "k", bytesOf "old", some ⟨5, TimeUnit.second⟩⟩]
        ⟨bytesOf "k", bytesOf "new", none⟩) (bytesOf "k") =
      some ⟨bytesOf "k", bytesOf "new", none⟩ ∧
    repoFind (repoSet [⟨bytesOf "k", bytesOf "old", some ⟨5, TimeUnit.second⟩⟩]
        ⟨bytesOf "k", bytesOf "new", none⟩) (bytesOf "j") =
      repoFind [⟨bytesOf "k", bytesOf "old", some ⟨5, TimeUnit.second⟩⟩] (bytesOf "j") :=
  ⟨(C6_put_overwrites _ _).1, (C6_put_overwrites _ _).2 (bytesOf "j") (by decide)⟩

/-! ## §4.3 Snapshot loader — `src/snapshot.rs` -/

/-- The `load` runner loop over the already-decoded entry stream: an entry
whose expiry `is_expired` at the load-time clock reading is skipped
(`continue`), every other entry is `repository.set` into the keyspace. -/
def loadEntries (stream : List Entry) (now_ms : Nat) (repository : Repo) : Repo :=
  match stream with
  | [] => repository
  | entry :: rest =>
    match entry.expiry with
    | some expiry =>
      if expiry.is_expired now_ms then loadEntries rest now_ms repository
      else loadEntries rest now_ms (repoSet repository entry)
    | none => loadEntries rest now_ms (repoSet repository entry)

/-- Whether the runner keeps an entry at load time: expiry absent, or not
yet expired (`now_ms ≤ expiry_ms` — equality included). -/
def keptAtLoad (now_ms : Nat) (entry : Entry) : Bool :=
  match entry.expiry with
  | none => true
  | some expiry => ! expiry.is_expired now_ms

/-- C5 (counterexample): an entry whose stored expiry equals the load-time
reading (`expiry_ms = now_ms = 100`) is inserted by the runner, not
skipped — `is_expired` is strict (`now > expiry`). -/
theorem C5_load_counterexample :
    loadEntries [⟨bytesOf "k", bytesOf "v", some ⟨100, TimeUnit.millisecond⟩⟩] 100 [] =
      [⟨bytesOf "k", bytesOf "v", some ⟨100, TimeUnit.millisecond⟩⟩] ∧
    repoFind (loadEntries [⟨bytesOf "k", bytesOf "v", some ⟨100, TimeUnit.millisecond⟩⟩] 100 [])
        (bytesOf "k") =
      some ⟨bytesOf "k", bytesOf "v", some ⟨100, TimeUnit.millisecond⟩⟩ :=
  ⟨rfl, rfl⟩

/-- C5 (amended): the runner inserts exactly the entries whose expiry is
absent or satisfies `expiry_ms ≥ now_ms` (so an entry with
`expiry_ms = now_ms` is inserted); entries with `expiry_ms < now_ms` are
silently skipped.  Loading a stream equals folding `set` over the kept
entries in order. -/
theorem C5_load_skips_expired (stream : List Entry) (now_ms : Nat) (repository : Repo) :
    loadEntries stream now_ms repository =
      (stream.filter (keptAtLoad now_ms)).foldl repoSet repository ∧
    ∀ entry, keptAtLoad now_ms entry = true ↔
      (entry.expiry = none ∨ ∃ ex, entry.expiry = some ex ∧ now_ms ≤ ex.to_millis) := by
  constructor
  · induction stream generalizing repository with
    | nil => rfl
    | cons entry rest ih =>
      unfold loadEntries
      cases hex : entry.expiry with
      | some expiry =>
        dsimp only
        by_cases hexp : expiry.is_expired now_ms = true
        · rw [if_pos hexp]
          have hkeep : keptAtLoad now_ms entry = false := by
            unfold keptAtLoad
            rw [hex]
            simp [hexp]
          rw [List.filter_cons_of_neg (by simp [hkeep])]
          exact ih repository
        · rw [if_neg hexp]
          have hkeep : keptAtLoad now_ms entry = true := by
            unfold keptAtLoad
            rw [hex]
            simp [hexp]
          rw [List.filter_cons_of_pos (by simp [hkeep])]
          exact ih (repoSet repository entry)
      | none =>
        dsimp only
        have hkeep : keptAtLoad now_ms entry = true := by
          unfold keptAtLoad
          rw [hex]
        rw [List.filter_cons_of_pos (by simp [hkeep])]
        exact ih (repoSet repository entry)
  · intro entry
    unfold keptAtLoad Expiry.is_expired
    cases hex : entry.expiry with
    | none => simp
    | some ex =>
      simp only [Bool.not_eq_true', decide_eq_false_iff_not, not_lt]
      constructor
      · intro h
        exact Or.inr ⟨ex, rfl, by simpa using h⟩
      · rintro (h | ⟨ex', hex', hle⟩)
        · cases h
        · obtain rfl : ex = ex' := Option.some_inj.mp hex'
          simpa using hle

/-- `RdbFileReader::read_size` over the byte stream: decode one
size-encoding prefix, returning the size and the remaining bytes.  `none`
models a read failing for lack of bytes and the `unimplemented` arm.
NOTE (faithful to the source): the `0b01` arm shifts the low bits by 6 and
the `0b10` arm reads FIVE bytes (the source variable `next_four_bytes`
holds `read_bytes(5)`) and folds all of them big-endian. -/
def read_size (buf : ByteStr) : Option (Nat × ByteStr) :=
  match buf with
  | [] => none
  | first_byte :: rest =>
    let first_two_bits := (first_byte >>> 6) &&& 3
    let remaining_bites := first_byte &&& 63
    if first_two_bits = 0 then some (remaining_bites, rest)
    else if first_two_bits = 1 then
      match rest with
      | second_bytes :: rest2 => some ((remaining_bites <<< 6) + second_bytes, rest2)
      | [] => none
    else if first_two_bits = 2 then
      match rest with
      | b1 :: b2 :: b3 :: b4 :: b5 :: rest5 =>
        some ([b1, b2, b3, b4, b5].foldl (fun acc b => (acc <<< 8) ||| b) 0, rest5)
      | _ => none
    else
      if remaining_bites = 0 then some (1, rest)
      else if remaining_bites = 1 then some (2, rest)
      else if remaining_bites = 2 then some (4, rest)
      else none

/-- C3: evaluation of `read_size`.  The `00` and `11` modes behave as the
claim states, but on `0x41 0x02` (mode `01`) the code returns
`(1 <<< 6) + 2 = 66` where the claim requires `(1 <<< 8) ||| 2 = 258`, and
in mode `10` the code consumes five bytes instead of four: on
`0x80 00 00 00 01 99` it returns `0x199 = 409` with nothing left, where
the claim requires size `1` with `0x99` left over. -/
theorem C3_read_size_eval :
    read_size [10, 99] = some (10, [99]) ∧
    read_size [65, 2] = some (66, []) ∧
    (66 : Nat) ≠ (1 <<< 8) ||| 2 ∧
    read_size [128, 0, 0, 0, 1, 153] = some (409, []) ∧
    read_size [192, 7] = some (1, [7]) ∧
    read_size [193] = some (2, []) ∧
    read_size [194] = some (4, []) ∧
    read_size [195] = none :=
  ⟨rfl, rfl, by decide, rfl, rfl, rfl, rfl, rfl⟩

/-! ## §4.4 KEYS pattern matching — `src/command/keys.rs` -/

/-- Rust `str::strip_suffix('*')`: `some` of the pattern without its final
byte when that byte is `*` (42), `none` otherwise. -/
def stripStarAtEnd : ByteStr → Option ByteStr
  | [] => none
  | [b] => if b = 42 then some [] else none
  | b :: rest => (stripStarAtEnd rest).map (fun r => b :: r)

/-- Rust `str::strip_prefix('*')`. -/
def stripStarAtStart : ByteStr → Option ByteStr
  | b :: rest => if b = 42 then some rest else none
  | [] => none

/-- Rust `str::find('*')` plus the two slices `pattern[..pos]` and
`pattern[pos + 1..]` around the first `*`. -/
def splitAtFirstStar : ByteStr → Option (ByteStr × ByteStr)
  | [] => none
  | b :: rest =>
    if b = 42 then some ([], rest)
    else
      match splitAtFirstStar rest with
      | some (pre, suf) => some (b :: pre, suf)
      | none => none

/-- `Keys::match_asterisk_pattern`: `*` alone matches everything; a
trailing `*` tests the prefix; a leading `*` tests the suffix; an interior
`*` tests prefix and suffix; no `*` tests equality. -/
def match_asterisk_pattern (pattern text : ByteStr) : Bool :=
  if pattern = [42] then true
  else
    match stripStarAtEnd pattern with
    | some pre => pre.isPrefixOf text
    | none =>
      match stripStarAtStart pattern with
      | some suf => suf.isSuffixOf text
      | none =>
        match splitAtFirstStar pattern with
        | some (pre, suf) => pre.isPrefixOf text && suf.isSuffixOf text
        | none => pattern == text

/-- `Keys::execute` over the entries snapshot, with the wall-clock reading
passed explicitly: keep the entries whose key matches the pattern and whose
expiry is absent or satisfies `expiry_ms ≥ now_ms`, and reply with the
array of their keys as bulk strings. -/
def keysExecute (pattern : ByteStr) (entries : List Entry) (now_in_millis : Nat) : Value :=
  Value.array ((entries.filter fun entry =>
    match_asterisk_pattern pattern entry.key &&
      (entry.expiry.isNone ||
        ((entry.expiry.map Expiry.to_millis).getD 0 ≥ now_in_millis))).map
    fun entry => Value.bulkString entry.key)

/-- Matching as the claim's §4.4 glob rules word it, amended only in that
the text between `pre` and `suf` may overlap (no minimum key length): with
at most one `*`, the pattern `pre*suf` matches the keys that start with
`pre` and end with `suf`; with no `*` only the identical key matches. -/
def specGlobMatch (pattern text : ByteStr) : Bool :=
  match splitAtFirstStar pattern with
  | some (pre, suf) => pre.isPrefixOf text && suf.isSuffixOf text
  | none => pattern == text

theorem splitAtFirstStar_of_no_star (p : ByteStr) (hp : 42 ∉ p) :
    splitAtFirstStar p = none := by
  induction p with
  | nil => rfl
  | cons b rest ih =>
    have hb : b ≠ 42 := by
      intro h; exact hp (h ▸ List.mem_cons_self b rest)
    have hrest : 42 ∉ rest := fun h => hp (List.mem_cons_of_mem _ h)
    unfold splitAtFirstStar
    rw [if_neg hb, ih hrest]

theorem splitAtFirstStar_append (pre suf : ByteStr) (hpre : 42 ∉ pre) :
    splitAtFirstStar (pre ++ 42 :: suf) = some (pre, suf) := by
  induction pre with
  | nil => simp [splitAtFirstStar]
  | cons b rest ih =>
    have hb : b ≠ 42 := by
      intro h; exact hpre (h ▸ List.mem_cons_self b rest)
    have hrest : 42 ∉ rest := fun h => hpre (List.mem_cons_of_mem _ h)
    simp only [List.cons_append]
    unfold splitAtFirstStar
    rw [if_neg hb, ih hrest]

theorem stripStarAtEnd_concat_star (pre : ByteStr) :
    stripStarAtEnd (pre ++ [42]) = some pre := by
  induction pre with
  | nil => rfl
  | cons b rest ih =>
    cases rest with
    | nil => rfl
    | cons c t =>
      simp only [List.cons_append] at ih ⊢
      rw [stripStarAtEnd, ih] <;> simp

theorem stripStarAtEnd_concat_nonstar (q : ByteStr) (b : Nat) (hb : b ≠ 42) :
    stripStarAtEnd (q ++ [b]) = none := by
  induction q with
  | nil => simp [stripStarAtEnd, hb]
  | cons c t ih =>
    cases t with
    | nil => simp [stripStarAtEnd, hb]
    | cons d t2 =>
      simp only [List.cons_append] at ih ⊢
      rw [stripStarAtEnd, ih] <;> simp

theorem match_eq_specGlobMatch (pattern text : ByteStr)
    (hp : 42 ∉ pattern ∨ ∃ pre suf, pattern = pre ++ 42 :: suf ∧ 42 ∉ pre ∧ 42 ∉ suf) :
    match_asterisk_pattern pattern text = specGlobMatch pattern text := by
  rcases hp with hno | ⟨pre, suf, rfl, hpre, hsuf⟩
  · have hne : pattern ≠ [42] := by
      intro h
      subst h
      exact hno (by simp)
    have hsplit := splitAtFirstStar_of_no_star pattern hno
    have hend : stripStarAtEnd pattern = none := by
      rcases List.eq_nil_or_concat pattern with h | ⟨q, b, hq⟩
      · subst h; rfl
      · subst hq
        have hb : b ≠ 42 := by
          intro h
          subst h
          exact hno (by simp)
        simpa using stripStarAtEnd_concat_nonstar q b hb
    have hstart : stripStarAtStart pattern = none := by
      cases pattern with
      | nil => rfl
      | cons c rest =>
        have hc : c ≠ 42 := fun h => hno (h ▸ List.mem_cons_self c rest)
        simp [stripStarAtStart, hc]
    unfold match_asterisk_pattern specGlobMatch
    rw [if_neg hne, hend, hstart, hsplit]
  · rcases List.eq_nil_or_concat suf with rfl | ⟨suf0, b, hs⟩
    · cases pre with
      | nil =>
        unfold match_asterisk_pattern specGlobMatch
        simp [splitAtFirstStar, List.isSuffixOf, List.isPrefixOf]
      | cons c pre' =>
        have hne : (c :: pre') ++ 42 :: ([] : ByteStr) ≠ [42] := by
          intro h
          simp at h
        unfold match_asterisk_pattern specGlobMatch
        have hconcat : (c :: pre') ++ 42 :: ([] : ByteStr) = (c :: pre') ++ [42] := rfl
        rw [if_neg hne, hconcat, stripStarAtEnd_concat_star,
          splitAtFirstStar_append _ _ hpre]
        simp [List.isSuffixOf]
    · rw [List.concat_eq_append] at hs
      subst hs
      have hb : b ≠ 42 := by
        intro h
        subst h
        exact hsuf (by simp)
      have hne : pre ++ 42 :: (suf0 ++ [b]) ≠ [42] := by
        intro h
        have hlen := congrArg List.length h
        simp [List.length_append] at hlen
        omega
      have hend : stripStarAtEnd (pre ++ 42 :: (suf0 ++ [b])) = none := by
        have hassoc : pre ++ 42 :: (suf0 ++ [b]) = (pre ++ 42 :: suf0) ++ [b] := by
          simp
        rw [hassoc]
        exact stripStarAtEnd_concat_nonstar _ b hb
      cases pre with
      | nil =>
        unfold match_asterisk_pattern specGlobMatch
        rw [if_neg hne, hend]
        simp [stripStarAtStart, splitAtFirstStar, List.isPrefixOf]
      | cons c pre' =>
        have hc : c ≠ 42 := fun h => hpre (h ▸ List.mem_cons_self c pre')
        have hstart : stripStarAtStart ((c :: pre') ++ 42 :: (suf0 ++ [b])) = none := by
          simp [stripStarAtStart, hc]
        unfold match_asterisk_pattern specGlobMatch
        rw [if_neg hne, hend, hstart, splitAtFirstStar_append _ _ hpre]

/-- C4 (counterexample): with pattern `ab*ba`, the key `aba` matches even
though it is shorter than the prefix and suffix together — the code tests
`starts_with` and `ends_with` independently, letting them overlap — so the
claim's "any text strictly between them" reading is false; KEYS replies
with that key. -/
theorem C4_keys_counterexample :
    match_asterisk_pattern (bytesOf "ab*ba") (bytesOf "aba") = true ∧
    (bytesOf "aba").length < (bytesOf "ab").length + (bytesOf "ba").length ∧
    keysExecute (bytesOf "ab*ba") [⟨bytesOf "aba", bytesOf "v", none⟩] 0 =
      Value.array [Value.bulkString (bytesOf "aba")] :=
  ⟨rfl, by decide, rfl⟩

/-- C4 (amended): for a pattern with at most one `*` — the §4.4 forms — a
KEYS execution replies with exactly the keys of the entries whose key
matches the glob rules amended to let prefix and suffix overlap (no
minimum key length), and that are not expired: expiry absent or
`expiry_ms ≥ now_ms`, equality included. -/
theorem C4_keys_glob (pattern : ByteStr) (entries : List Entry) (now_ms : Nat)
    (hp : 42 ∉ pattern ∨ ∃ pre suf, pattern = pre ++ 42 :: suf ∧ 42 ∉ pre ∧ 42 ∉ suf) :
    keysExecute pattern entries now_ms =
      Value.array ((entries.filter fun e =>
        specGlobMatch pattern e.key && keptAtLoad now_ms e).map
        fun e => Value.bulkString e.key) := by
  unfold keysExecute
  congr 1
  congr 1
  apply List.filter_congr
  intro e _
  rw [match_eq_specGlobMatch pattern e.key hp]
  congr 1
  unfold keptAtLoad Expiry.is_expired
  cases hex : e.expiry with
  | none => rfl
  | some ex =>
    simp only [Option.isNone_some, Option.map_some', Option.getD_some, Bool.false_or]
    rw [← decide_not, decide_eq_decide]
    omega

/-- Witness for `C4_keys_glob`: `h*` selects exactly the keys starting
with `h`. -/
theorem C4_keys_glob_witness :
    keysExecute (bytesOf "h*") [⟨bytesOf "healingpaper", bytesOf "v", none⟩,
      ⟨bytesOf "arine", bytesOf "w", none⟩] 5 =
      Value.array [Value.bulkString (bytesOf "healingpaper")] := by
  rw [C4_keys_glob (bytesOf "h*") _ 5
    (Or.inr ⟨bytesOf "h", [], by decide, by decide, by decide⟩)]
  rfl

/-! ## Configuration — `src/config.rs` -/

/-- `Server`. -/
structure Server where
  port : Nat
  deriving DecidableEq

/-- `ReplicationMaster`. -/
structure ReplicationMaster where
  id : ByteStr
  offset : Nat
  deriving DecidableEq

/-- `ReplicationMaster::default()`: the fixed 40-hex-character replication
id and offset 0. -/
def ReplicationMaster.default : ReplicationMaster :=
  ⟨bytesOf "8371b4fb1155b71f4a04d3e1bc3e18c4a990aeeb", 0⟩

/-- `ReplicationSlave` (only its presence matters to the verified code). -/
structure ReplicationSlave where
  master_address : ByteStr
  deriving DecidableEq

/-- `Replication`. -/
structure Replication where
  master : ReplicationMaster
  slave : Option ReplicationSlave
  deriving DecidableEq

/-- `RdbConfig`. -/
structure RdbConfig where
  directory : ByteStr
  filename : ByteStr
  deriving DecidableEq

/-- `Config`. -/
structure Config where
  server : Server
  replication : Replication
  rdb : Option RdbConfig
  deriving DecidableEq

/-- `Config::get`: `port` always answers; `dir` and `dbfilename` answer
only when an RDB location is configured; anything else is `None`. -/
def Config.get (c : Config) (arg : ByteStr) : Option ByteStr :=
  if arg = bytesOf "port" then some (natBytes c.server.port)
  else if arg = bytesOf "dir" then c.rdb.map (fun rdb => rdb.directory)
  else if arg = bytesOf "dbfilename" then c.rdb.map (fun rdb => rdb.filename)
  else none

/-- `ConfigGet::execute` (`src/command/config_get.rs`): reply
`[name, value]` when the config answers, `Null` otherwise. -/
def configGetExecute (key : ByteStr) (config : Config) : Value :=
  match config.get key with
  | some v => Value.array [Value.bulkString key, Value.bulkString v]
  | none => Value.null

/-- C7 (counterexample): in a configuration without an RDB location,
CONFIG GET `dir` — a recognized name — replies `Null`, so `Null` does not
imply the name is unrecognized. -/
theorem C7_config_get_counterexample :
    configGetExecute (bytesOf "dir")
      ⟨⟨6379⟩, ⟨ReplicationMaster.default, none⟩, none⟩ = Value.null :=
  rfl

/-- C7 (amended): CONFIG GET `port` always replies `[port, value]`;
`dir` and `dbfilename` reply `[name, value]` exactly when an RDB location
is configured and `Null` otherwise; every unrecognized name replies
`Null`. -/
theorem C7_config_get (c : Config) (name : ByteStr) :
    (configGetExecute (bytesOf "port") c =
      Value.array [Value.bulkString (bytesOf "port"),
        Value.bulkString (natBytes c.server.port)]) ∧
    (∀ r, c.rdb = some r →
      configGetExecute (bytesOf "dir") c =
        Value.array [Value.bulkString (bytesOf "dir"), Value.bulkString r.directory] ∧
      configGetExecute (bytesOf "dbfilename") c =
        Value.array [Value.bulkString (bytesOf "dbfilename"), Value.bulkString r.filename]) ∧
    (c.rdb = none →
      configGetExecute (bytesOf "dir") c = Value.null ∧
      configGetExecute (bytesOf "dbfilename") c = Value.null) ∧
    (name ≠ bytesOf "port" → name ≠ bytesOf "dir" → name ≠ bytesOf "dbfilename" →
      configGetExecute name c = Value.null) := by
  refine ⟨rfl, ?_, ?_, ?_⟩
  · intro r hr
    constructor <;> simp [configGetExecute, Config.get, hr, bytesOf]
  · intro hr
    constructor <;> simp [configGetExecute, Config.get, hr, bytesOf]
  · intro h1 h2 h3
    simp [configGetExecute, Config.get, h1, h2, h3]

/-- Witness for `C7_config_get` at a concrete configuration: an RDB
location is set, so `dir` answers, and an unknown name replies `Null`. -/
theorem C7_config_get_witness :
    configGetExecute (bytesOf "dir")
        ⟨⟨6379⟩, ⟨ReplicationMaster.default, none⟩,
          some ⟨bytesOf "/tmp", bytesOf "dump.rdb"⟩⟩ =
      Value.array [Value.bulkString (bytesOf "dir"), Value.bulkString (bytesOf "/tmp")] ∧
    configGetExecute (bytesOf "maxmemory")
        ⟨⟨6379⟩, ⟨ReplicationMaster.default, none⟩,
          some ⟨bytesOf "/tmp", bytesOf "dump.rdb"⟩⟩ = Value.null :=
  ⟨((C7_config_get ⟨⟨6379⟩, ⟨ReplicationMaster.default, none⟩,
      some ⟨bytesOf "/tmp", bytesOf "dump.rdb"⟩⟩ (bytesOf "maxmemory")).2.1
      ⟨bytesOf "/tmp", bytesOf "dump.rdb"⟩ rfl).1,
   (C7_config_get ⟨⟨6379⟩, ⟨ReplicationMaster.default, none⟩,
      some ⟨bytesOf "/tmp", bytesOf "dump.rdb"⟩⟩ (bytesOf "maxmemory")).2.2.2
      (by decide) (by decide) (by decide)⟩

/-! ## INFO replication — `src/command/info_replication.rs` -/

/-- Rust `Vec::<String>::join("\x7b \x7dr\x7b \x7dn")`: the pieces
concatenated with a CRLF between consecutive ones. -/
def joinCRLF : List ByteStr → ByteStr
  | [] => []
  | [s] => s
  | s :: rest => s ++ 13 :: 10 :: joinCRLF rest

/-- `InfoReplication::execute`: role `slave` when an upstream is
configured, otherwise the master triple, joined with CRLF. -/
def infoReplicationExecute (config : Config) : Value :=
  let properties :=
    match config.replication.slave with
    | some _ => [bytesOf "role:slave"]
    | none =>
      [bytesOf "role:master",
       bytesOf "master_replid:" ++ config.replication.master.id,
       bytesOf "master_repl_offset:" ++ natBytes config.replication.master.offset]
  Value.bulkString (joinCRLF properties)

/-- ASCII lowercase hex digit test (the default replication id uses
`0-9a-f`). -/
def isHexDigitByte (b : Nat) : Bool := (48 ≤ b && b ≤ 57) || (97 ≤ b && b ≤ 102)

/-- C9: INFO replication replies a bulk string whose body is, for role
master, the three lines `role:master`, `master_replid:<id>`,
`master_repl_offset:<decimal>` joined by CRLF in that order, and for role
slave exactly `role:slave`; the default master id is 40 hex characters. -/
theorem C9_info_replication (c : Config) :
    (c.replication.slave = none →
      infoReplicationExecute c = Value.bulkString
        (bytesOf "role:master" ++ 13 :: 10 ::
          (bytesOf "master_replid:" ++ c.replication.master.id) ++ 13 :: 10 ::
          (bytesOf "master_repl_offset:" ++ natBytes c.replication.master.offset))) ∧
    (∀ sl, c.replication.slave = some sl →
      infoReplicationExecute c = Value.bulkString (bytesOf "role:slave")) ∧
    ReplicationMaster.default.id.length = 40 ∧
    ReplicationMaster.default.id.all isHexDigitByte = true := by
  refine ⟨?_, ?_, by decide, by decide⟩
  · intro h
    unfold infoReplicationExecute
    rw [h]
    simp [joinCRLF, List.append_assoc]
  · intro sl h
    unfold infoReplicationExecute
    rw [h]
    rfl

/-- Witness for `C9_info_replication`: the default configuration is a
master and replies with the expected three-line body; a slave
configuration replies `role:slave`. -/
theorem C9_info_replication_witness :
    infoReplicationExecute ⟨⟨6379⟩, ⟨ReplicationMaster.default, none⟩, none⟩ =
      Value.bulkString
        (bytesOf "role:master" ++ 13 :: 10 ::
          (bytesOf "master_replid:" ++ ReplicationMaster.default.id) ++ 13 :: 10 ::
          (bytesOf "master_repl_offset:" ++ natBytes 0)) ∧
    infoReplicationExecute
        ⟨⟨6379⟩, ⟨ReplicationMaster.default, some ⟨bytesOf "h 1"⟩⟩, none⟩ =
      Value.bulkString (bytesOf "role:slave") :=
  ⟨(C9_info_replication ⟨⟨6379⟩, ⟨ReplicationMaster.default, none⟩, none⟩).1 rfl,
   (C9_info_replication ⟨⟨6379⟩, ⟨ReplicationMaster.default, some ⟨bytesOf "h 1"⟩⟩, none⟩).2.1
     ⟨bytesOf "h 1"⟩ rfl⟩

/-! ## Command parsing — `src/command/parser.rs` and the command files -/

/-- `extract_array`. -/
def extract_array : Value → Option (List Value)
  | .array a => some a
  | _ => none

/-- `extract_bulk_string`: the element at `index` must exist and be a bulk
string (a missing element and a non-bulk element both fail). -/
def extract_bulk_string (array : List Value) (index : Nat) : Option ByteStr :=
  match array.get? index with
  | some (.bulkString s) => some s
  | _ => none

/-- ASCII uppercase of one byte.  Rust `str::to_uppercase` agrees with this
on ASCII content, and every name compared against here (`SET`, `PX`,
`PING`, …) is ASCII. -/
def asciiUpper (b : Nat) : Nat := if 97 ≤ b ∧ b ≤ 122 then b - 32 else b

/-- Byte-wise ASCII case folding to upper case. -/
def to_uppercase (s : ByteStr) : ByteStr := s.map asciiUpper

/-- `validate_main_command`: the element at index 0 must be a bulk string
equal to the expected name under case folding. -/
def validate_main_command (array : List Value) (expected : ByteStr) : Option Unit :=
  match extract_bulk_string array 0 with
  | none => none
  | some cmd => if to_uppercase cmd = to_uppercase expected then some () else none

/-- `validate_sub_command`: same at index 1. -/
def validate_sub_command (array : List Value) (expected : ByteStr) : Option Unit :=
  match extract_bulk_string array 1 with
  | none => none
  | some cmd => if to_uppercase cmd = to_uppercase expected then some () else none

/-- `validate_array_length`. -/
def validate_array_length (array : List Value) (expected : Nat) : Option Unit :=
  if array.length = expected then some () else none

/-- `validate_min_array_length`. -/
def validate_min_array_length (array : List Value) (lo : Nat) : Option Unit :=
  if array.length < lo then none else some ()

/-- Rust `str::trim_matches('"')`: strip every leading and trailing
double quote (byte 34). -/
def trim_matches_quote (s : ByteStr) : ByteStr :=
  ((s.dropWhile fun b => b == 34).reverse.dropWhile fun b => b == 34).reverse

/-- `Ping` command. -/
structure Ping where
  deriving DecidableEq

/-- `Echo` command. -/
structure Echo where
  message : ByteStr
  deriving DecidableEq

/-- `Set` command (`src/command/set.rs`). -/
structure Set where
  key : ByteStr
  value : ByteStr
  expires_after : Option Nat
  deriving DecidableEq

/-- `Get` command. -/
structure Get where
  key : ByteStr
  deriving DecidableEq

/-- `Keys` command. -/
structure Keys where
  pattern : ByteStr
  deriving DecidableEq

/-- `ConfigGet` command. -/
structure ConfigGet where
  key : ByteStr
  deriving DecidableEq

/-- `InfoReplication` command. -/
structure InfoReplication where
  deriving DecidableEq

/-- `Ping::parse_from`. -/
def Ping.parse_from (value : Value) : Option Ping := do
  let array ← extract_array value
  let _ ← validate_array_length array 1
  let _ ← validate_main_command array (bytesOf "PING")
  pure ⟨⟩

/-- `Echo::parse_from`. -/
def Echo.parse_from (value : Value) : Option Echo := do
  let array ← extract_array value
  let _ ← validate_array_length array 2
  let _ ← validate_main_command array (bytesOf "ECHO")
  let message ← extract_bulk_string array 1
  pure ⟨message⟩

/-- `Set::parse_from`: at least three elements, `SET` as main command, a
bulk-string key and value; when five or more elements are present the
fourth must be a bulk string, and only when it case-folds to `PX` is the
fifth parsed as the expiry in milliseconds — otherwise the trailing
elements are ignored. -/
def Set.parse_from (value : Value) : Option Set := do
  let array ← extract_array value
  let _ ← validate_min_array_length array 3
  let _ ← validate_main_command array (bytesOf "SET")
  let key ← extract_bulk_string array 1
  let v ← extract_bulk_string array 2
  let expires_after ←
    if array.length ≥ 5 then do
      let option_key ← extract_bulk_string array 3
      if to_uppercase option_key = bytesOf "PX" then do
        let option_value ← extract_bulk_string array 4
        let ms ← parseUsize option_value
        pure (some ms)
      else pure none
    else pure none
  pure ⟨key, v, expires_after⟩

/-- `Get::parse_from`. -/
def Get.parse_from (value : Value) : Option Get := do
  let array ← extract_array value
  let _ ← validate_array_length array 2
  let _ ← validate_main_command array (bytesOf "GET")
  let key ← extract_bulk_string array 1
  pure ⟨key⟩

/-- `Keys::parse_from` (surrounding double quotes are trimmed from the
pattern). -/
def Keys.parse_from (value : Value) : Option Keys := do
  let array ← extract_array value
  let _ ← validate_array_length array 2
  let _ ← validate_main_command array (bytesOf "KEYS")
  let pattern ← extract_bulk_string array 1
  pure ⟨trim_matches_quote pattern⟩

/-- `ConfigGet::parse_from`. -/
def ConfigGet.parse_from (value : Value) : Option ConfigGet := do
  let array ← extract_array value
  let _ ← validate_array_length array 3
  let _ ← validate_main_command array (bytesOf "CONFIG")
  let _ ← validate_sub_command array (bytesOf "GET")
  let key ← extract_bulk_string array 2
  pure ⟨key⟩

/-- `InfoReplication::parse_from`. -/
def InfoReplication.parse_from (value : Value) : Option InfoReplication := do
  let array ← extract_array value
  let _ ← validate_array_length array 2
  let _ ← validate_main_command array (bytesOf "INFO")
  let _ ← validate_sub_command array (bytesOf "replication")
  pure ⟨⟩

/-- `CommandSet` (`src/command/executor.rs`). -/
inductive CommandSet where
  | ping (c : Ping)
  | echo (c : Echo)
  | set (c : Set)
  | get (c : Get)
  | keys (c : Keys)
  | configGet (c : ConfigGet)
  | infoReplication (c : InfoReplication)

/-- The dispatcher `parse`: try every command's parser in the fixed order;
the first success wins; when none succeeds, the frame is rejected. -/
def parse (value : Value) : Option CommandSet :=
  match Ping.parse_from value with
  | some c => some (.ping c)
  | none =>
    match Echo.parse_from value with
    | some c => some (.echo c)
    | none =>
      match Set.parse_from value with
      | some c => some (.set c)
      | none =>
        match Get.parse_from value with
        | some c => some (.get c)
        | none =>
          match Keys.parse_from value with
          | some c => some (.keys c)
          | none =>
            match ConfigGet.parse_from value with
            | some c => some (.configGet c)
            | none =>
              match InfoReplication.parse_from value with
              | some c => some (.infoReplication c)
              | none => none

/-- `CommandExecutorContext`: the shared keyspace and configuration. -/
structure CommandExecutorContext where
  repository : Repo
  config : Config

/-- `Ping::execute`. -/
def Ping.execute (_ : Ping) : Value := Value.simpleString (bytesOf "PONG")

/-- `Echo::execute`. -/
def Echo.execute (c : Echo) : Value := Value.bulkString c.message

/-- `Set::execute`: store the entry (expiry = now + px, when given) and
reply `OK`; the updated keyspace is returned alongside the reply. -/
def Set.execute (c : Set) (repository : Repo) (now_in_millis : Nat) : Value × Repo :=
  let expiry := c.expires_after.map fun after =>
    Expiry.mk (now_in_millis + after) TimeUnit.millisecond
  (Value.simpleString (bytesOf "OK"), repoSet repository ⟨c.key, c.value, expiry⟩)

/-- `Get::execute`. -/
def Get.execute (c : Get) (repository : Repo) (now_in_millis : Nat) : Value :=
  match repoGet repository c.key now_in_millis with
  | some v => Value.bulkString v
  | none => Value.null

/-- `Keys::execute` (see `keysExecute`). -/
def Keys.execute (c : Keys) (repository : Repo) (now_in_millis : Nat) : Value :=
  keysExecute c.pattern repository now_in_millis

/-- `ConfigGet::execute` (see `configGetExecute`). -/
def ConfigGet.execute (c : ConfigGet) (config : Config) : Value :=
  configGetExecute c.key config

/-- `InfoReplication::execute` (see `infoReplicationExecute`). -/
def InfoReplication.execute (_ : InfoReplication) (config : Config) : Value :=
  infoReplicationExecute config

/-- The dispatcher `execute` (`src/command/executor.rs`): run the matched
command's executor against the context; the possibly updated keyspace is
returned alongside the reply. -/
def executeCommand (command_set : CommandSet) (context : CommandExecutorContext)
    (now_in_millis : Nat) : Value × Repo :=
  match command_set with
  | .ping c => (c.execute, context.repository)
  | .echo c => (c.execute, context.repository)
  | .set c => c.execute context.repository now_in_millis
  | .get c => (c.execute context.repository now_in_millis, context.repository)
  | .keys c => (c.execute context.repository now_in_millis, context.repository)
  | .configGet c => (c.execute context.config, context.repository)
  | .infoReplication c => (c.execute context.config, context.repository)

example : parse (Value.array [Value.bulkString (bytesOf "PING")]) =
    some (CommandSet.ping ⟨⟩) := rfl
example : parse (Value.array [Value.bulkString (bytesOf "ECHO"),
    Value.bulkString (bytesOf "hey")]) = some (CommandSet.echo ⟨bytesOf "hey"⟩) := rfl
example : parse (Value.array [Value.bulkString (bytesOf "set"),
    Value.bulkString (bytesOf "k"), Value.bulkString (bytesOf "v"),
    Value.bulkString (bytesOf "px"), Value.bulkString (bytesOf "100")]) =
    some (CommandSet.set ⟨bytesOf "k", bytesOf "v", some 100⟩) := rfl

/-- C8: execution is total on well-formed commands — for every frame some
command parser accepts, the dispatcher's `execute` produces a reply value
(there is no error or panic branch in any executor). -/
theorem C8_executors_total (value : Value) (command_set : CommandSet)
    (context : CommandExecutorContext) (now_ms : Nat)
    (_h : parse value = some command_set) :
    ∃ reply : Value, (executeCommand command_set context now_ms).1 = reply :=
  ⟨(executeCommand command_set context now_ms).1, rfl⟩

/-- Witness for `C8_executors_total`: the PING frame parses and executes
to a reply. -/
theorem C8_executors_total_witness :
    ∃ reply : Value,
      (executeCommand (CommandSet.ping ⟨⟩)
        ⟨[], ⟨⟨6379⟩, ⟨ReplicationMaster.default, none⟩, none⟩⟩ 0).1 = reply :=
  C8_executors_total (Value.array [Value.bulkString (bytesOf "PING")])
    (CommandSet.ping ⟨⟩) ⟨[], ⟨⟨6379⟩, ⟨ReplicationMaster.default, none⟩, none⟩⟩ 0 rfl

/-- C10 (counterexample): a five-element SET frame whose fourth element is
not a bulk string — here a simple string — is rejected by the parser, not
parsed as a SET with no expiry. -/
theorem C10_set_counterexample :
    Set.parse_from (Value.array [Value.bulkString (bytesOf "SET"),
      Value.bulkString (bytesOf "k"), Value.bulkString (bytesOf "v"),
      Value.simpleString (bytesOf "EX"), Value.bulkString (bytesOf "10")]) = none :=
  rfl

/-- C10 (amended): a four-element SET frame parses to a SET with no expiry
whatever its fourth element is, and a SET frame of five or more elements
whose fourth element is a bulk string that does not case-fold to `PX`
parses to a SET with no expiry, its trailing arguments silently ignored.
(A five-or-more-element frame whose fourth element is not a bulk string is
rejected.) -/
theorem C10_set_trailing (k v s : ByteStr) (x : Value) (rest : List Value)
    (hpx : to_uppercase s ≠ bytesOf "PX") :
    Set.parse_from (Value.array [Value.bulkString (bytesOf "SET"),
        Value.bulkString k, Value.bulkString v, x]) =
      some ⟨k, v, none⟩ ∧
    Set.parse_from (Value.array (Value.bulkString (bytesOf "SET") ::
        Value.bulkString k :: Value.bulkString v :: Value.bulkString s :: rest)) =
      some ⟨k, v, none⟩ := by
  constructor
  · rfl
  · cases rest with
    | nil => rfl
    | cons y rest2 =>
      unfold Set.parse_from
      have hlen : ¬((Value.bulkString (bytesOf "SET") :: Value.bulkString k ::
          Value.bulkString v :: Value.bulkString s :: y :: rest2).length < 3) := by
        simp
      have hlen5 : (Value.bulkString (bytesOf "SET") :: Value.bulkString k ::
          Value.bulkString v :: Value.bulkString s :: y :: rest2).length ≥ 5 := by
        simp
      have hpx' : ¬(List.map asciiUpper s = bytesOf "PX") := by
        simpa [to_uppercase] using hpx
      simp only [extract_array, validate_min_array_length, if_neg hlen,
        validate_main_command, extract_bulk_string, List.get?, to_uppercase,
        Option.bind_eq_bind, Option.some_bind, if_pos hlen5]
      simp [hpx']

/-- Witness for `C10_set_trailing`: a four-element frame with a `Null`
fourth element, and a frame with the unsupported option `EX`, both parse
to a SET with no expiry. -/
theorem C10_set_trailing_witness :
    Set.parse_from (Value.array [Value.bulkString (bytesOf "SET"),
        Value.bulkString (bytesOf "a"), Value.bulkString (bytesOf "b"), Value.null]) =
      some ⟨bytesOf "a", bytesOf "b", none⟩ ∧
    Set.parse_from (Value.array (Value.bulkString (bytesOf "SET") ::
        Value.bulkString (bytesOf "a") :: Value.bulkString (bytesOf "b") ::
        Value.bulkString (bytesOf "EX") :: [Value.bulkString (bytesOf "10")])) =
      some ⟨bytesOf "a", bytesOf "b", none⟩ :=
  C10_set_trailing (bytesOf "a") (bytesOf "b") (bytesOf "EX") Value.null
    [Value.bulkString (bytesOf "10")] (by decide)
